import Mathlib

/-!
# Verification of the NovelSync crawl/persist controller

Shallow embedding of the novel-crawler's core logic:
* `App.tsx` — the `sanitize` helper, file-name composition, the chapter queue
  and the `processNextChapter` tick (the crawl controller);
* `services/githubService.ts` — `uploadFileToGitHub` (path normalization,
  per-segment percent-encoding, sha lookup, PUT body and result);
* `services/geminiService.ts` — `fetchChapterContent` (fault-swallowing
  content fetch).

Strings are modelled as Lean `String`/`List Char` (sequences of Unicode
scalar values); external network outcomes are explicit parameters.
-/

namespace Novels

/- ### Characters and JS string primitives -/

/-- The character class of the regex `[<>:"/\\|?*]` in `sanitize`
(App.tsx line 167). -/
def forbiddenChar (c : Char) : Bool :=
  c = '<' || c = '>' || c = ':' || c = '\"' || c = '/' || c = '\\' ||
  c = '|' || c = '?' || c = '*'

/-- The character class of the regex `[\r\n]` in `sanitize` (App.tsx line 167). -/
def crlfChar (c : Char) : Bool :=
  c = '\r' || c = '\n'

/-- ECMAScript `String.prototype.trim` whitespace: WhiteSpace (TAB, VT, FF,
SP, NBSP, ZWNBSP and Unicode Zs) together with LineTerminator (LF, CR, LS, PS). -/
def jsWhitespace (c : Char) : Bool :=
  c = '\t' || c = '\n' || c.toNat = 0xB || c.toNat = 0xC || c = '\r' ||
  c = ' ' || c.toNat = 0xA0 || c.toNat = 0x1680 ||
  (decide (0x2000 ≤ c.toNat) && decide (c.toNat ≤ 0x200A)) ||
  c.toNat = 0x2028 || c.toNat = 0x2029 || c.toNat = 0x202F ||
  c.toNat = 0x205F || c.toNat = 0x3000 || c.toNat = 0xFEFF

/-- One pass of JS `str.replace(/[class]+/g, r)` for a one-character
replacement `r`: each maximal run of characters satisfying `p` becomes a
single `r`.  `inRun` remembers whether the previous character belonged to a
run. -/
def collapseRunsAux (p : Char → Bool) (r : Char) : Bool → List Char → List Char
  | _, [] => []
  | inRun, c :: cs =>
    if p c then
      if inRun then collapseRunsAux p r true cs
      else r :: collapseRunsAux p r true cs
    else c :: collapseRunsAux p r false cs

/-- JS `str.replace(/[class]+/g, String.mk [r])`. -/
def collapseRuns (p : Char → Bool) (r : Char) (l : List Char) : List Char :=
  collapseRunsAux p r false l

/-- JS `str.trim()` on a character list: drop leading and trailing
ECMAScript whitespace. -/
def trimList (l : List Char) : List Char :=
  (((l.dropWhile jsWhitespace).reverse).dropWhile jsWhitespace).reverse

/-- `sanitize` from App.tsx line 167:
`str.replace(/[<>:"\/\\|?*]+/g, '_').replace(/[\r\n]+/g, '').trim()`.
Replacing each run of CR/LF with the empty string deletes exactly the CR/LF
characters, i.e. is a filter. -/
def sanitizeList (l : List Char) : List Char :=
  trimList ((collapseRuns forbiddenChar '_' l).filter (fun c => !crlfChar c))

/-- `sanitize` on `String`. -/
def sanitize (s : String) : String :=
  ⟨sanitizeList s.data⟩

/-- JS `String(n).padStart(3, '0')` as used in App.tsx line 174. -/
def pad3 (n : Nat) : String :=
  let s := toString n
  if s.length ≥ 3 then s
  else String.mk (List.replicate (3 - s.length) '0') ++ s

/-- `fileName` composition from App.tsx line 174:
`${safeNovelTitle}/${String(chapter.id).padStart(3, '0')}_${safeChapterTitle}.md`. -/
def fileName (novelTitle chapterTitle : String) (id : Nat) : String :=
  sanitize novelTitle ++ "/" ++ pad3 id ++ "_" ++ sanitize chapterTitle ++ ".md"

/-- The character class `[/]`, for the slash-collapsing regex
`replace(/\/+/g, '/')` in githubService.ts line 149. -/
def slashChar (c : Char) : Bool :=
  c = '/'

/-- JS `replace(/^\//, '')`: remove one leading slash if present
(githubService.ts line 149). -/
def stripLeadSlash : List Char → List Char
  | '/' :: t => t
  | l => l

/-- `rawPath` from githubService.ts line 149:
`` `${config.pathPrefix}${fileName}`.replace(/\/+/g, '/').replace(/^\//, '') ``. -/
def rawPath (pathPre fileNm : String) : String :=
  ⟨stripLeadSlash (collapseRuns slashChar '/' (pathPre ++ fileNm).data)⟩

/- ### Lemmas about the sanitize pipeline -/

theorem mem_collapseRunsAux {p : Char → Bool} {r c : Char} :
    ∀ (inRun : Bool) (l : List Char), c ∈ collapseRunsAux p r inRun l →
      c = r ∨ (c ∈ l ∧ p c = false) := by
  intro inRun l
  induction l generalizing inRun with
  | nil => simp [collapseRunsAux]
  | cons a t ih =>
    simp only [collapseRunsAux]
    by_cases hp : p a
    · simp only [hp, if_true]
      by_cases hb : inRun
      · simp only [hb, if_true]
        intro h
        rcases ih _ h with h1 | ⟨h2, h3⟩
        · exact Or.inl h1
        · exact Or.inr ⟨List.mem_cons_of_mem _ h2, h3⟩
      · simp only [hb, if_false]
        intro h
        rcases List.mem_cons.mp h with rfl | h'
        · exact Or.inl rfl
        · rcases ih _ h' with h1 | ⟨h2, h3⟩
          · exact Or.inl h1
          · exact Or.inr ⟨List.mem_cons_of_mem _ h2, h3⟩
    · simp only [hp, if_false]
      intro h
      rcases List.mem_cons.mp h with rfl | h'
      · exact Or.inr ⟨List.mem_cons_self _ _, by simpa using hp⟩
      · rcases ih _ h' with h1 | ⟨h2, h3⟩
        · exact Or.inl h1
        · exact Or.inr ⟨List.mem_cons_of_mem _ h2, h3⟩

theorem collapseRunsAux_eq_self {p : Char → Bool} {r : Char} {l : List Char}
    (h : ∀ c ∈ l, p c = false) : ∀ inRun, collapseRunsAux p r inRun l = l := by
  induction l with
  | nil => intro _; rfl
  | cons a t ih =>
    intro inRun
    have ha : p a = false := h a (List.mem_cons_self _ _)
    simp only [collapseRunsAux, ha, if_false, Bool.false_eq_true]
    exact congrArg (a :: ·) (ih (fun c hc => h c (List.mem_cons_of_mem _ hc)) false)

theorem mem_trimList {c : Char} {l : List Char} (h : c ∈ trimList l) : c ∈ l := by
  have h1 := (List.dropWhile_sublist (l := (l.dropWhile jsWhitespace).reverse)
    (p := jsWhitespace)).subset (List.mem_reverse.mp h)
  exact (List.dropWhile_sublist (l := l) (p := jsWhitespace)).subset
    (List.mem_reverse.mp h1)

theorem dropWhile_dropWhile_self {p : Char → Bool} (l : List Char) :
    (l.dropWhile p).dropWhile p = l.dropWhile p := by
  induction l with
  | nil => rfl
  | cons a t ih =>
    by_cases hp : p a
    · simpa [List.dropWhile_cons, hp] using ih
    · simp [List.dropWhile_cons, hp]

theorem dropWhile_eq_self_of_isPre {p : Char → Bool} {x y : List Char}
    (hpre : x <+: y) (hy : y.dropWhile p = y) : x.dropWhile p = x := by
  cases x with
  | nil => rfl
  | cons c x' =>
    obtain ⟨t, rfl⟩ := hpre
    by_cases hp : p c
    · exfalso
      have hlen : ((c :: x') ++ t).length ≤ ((x' ++ t).dropWhile p).length := by
        rw [show ((c :: x') ++ t).dropWhile p = (x' ++ t).dropWhile p by
          simp [List.dropWhile_cons, hp]] at hy
        simp [hy.symm]
      have := (List.dropWhile_sublist (p := p) (l := x' ++ t)).length_le
      have hsum : ((c :: x') ++ t).length = (x' ++ t).length + 1 := by simp
      omega
    · simp [List.dropWhile_cons, hp]

theorem trimList_trimList (l : List Char) : trimList (trimList l) = trimList l := by
  set w := jsWhitespace
  set a := l.dropWhile w with ha
  set b := (a.reverse.dropWhile w).reverse with hb
  have hbrev : b.reverse = a.reverse.dropWhile w := by
    rw [hb, List.reverse_reverse]
  have step1 : b.reverse.dropWhile w = b.reverse := by
    rw [hbrev]; exact dropWhile_dropWhile_self _
  have hadrop : a.dropWhile w = a := dropWhile_dropWhile_self l
  have hpre : b <+: a := by
    rw [← List.reverse_suffix]
    rw [hbrev]
    exact List.dropWhile_suffix _
  have step2 : b.dropWhile w = b := dropWhile_eq_self_of_isPre hpre hadrop
  show ((b.dropWhile w).reverse.dropWhile w).reverse = b
  rw [step2, step1, List.reverse_reverse]

theorem mem_sanitizeList {c : Char} {l : List Char} (h : c ∈ sanitizeList l) :
    c = '_' ∨ (c ∈ l ∧ forbiddenChar c = false ∧ crlfChar c = false) := by
  have h1 := mem_trimList h
  have h2 := List.mem_filter.mp h1
  have hcrlf : crlfChar c = false := by
    have := h2.2
    simpa using this
  rcases mem_collapseRunsAux _ _ h2.1 with h3 | ⟨h4, h5⟩
  · exact Or.inl h3
  · exact Or.inr ⟨h4, h5, hcrlf⟩

theorem sanitizeList_clean {c : Char} {l : List Char} (h : c ∈ sanitizeList l) :
    forbiddenChar c = false ∧ crlfChar c = false := by
  rcases mem_sanitizeList h with rfl | ⟨_, h1, h2⟩
  · exact ⟨by decide, by decide⟩
  · exact ⟨h1, h2⟩

theorem sanitizeList_idem (l : List Char) :
    sanitizeList (sanitizeList l) = sanitizeList l := by
  have hclean := fun c (hc : c ∈ sanitizeList l) => sanitizeList_clean hc
  show trimList (((collapseRuns forbiddenChar '_' (sanitizeList l))).filter _)
      = sanitizeList l
  rw [show collapseRuns forbiddenChar '_' (sanitizeList l) = sanitizeList l from
    collapseRunsAux_eq_self (fun c hc => (hclean c hc).1) false]
  rw [List.filter_eq_self.mpr (fun c hc => by
    simp [(hclean c hc).2])]
  exact trimList_trimList _

/- ### C1 and C7 -/

/-- C7: sanitization is idempotent — `sanitize (sanitize s) = sanitize s` for
every string `s` — and the output of `sanitize` never contains any of the
forbidden characters `< > : " / \ | ? *` nor raw carriage-return or
line-feed characters. -/
theorem C7_sanitize_idempotent_and_clean (s : String) :
    sanitize (sanitize s) = sanitize s ∧
    ∀ c ∈ (sanitize s).data, forbiddenChar c = false ∧ crlfChar c = false := by
  constructor
  · show (⟨sanitizeList (sanitizeList s.data)⟩ : String) = ⟨sanitizeList s.data⟩
    rw [sanitizeList_idem]
  · intro c hc
    exact sanitizeList_clean hc

theorem C7_witness :
    sanitize (sanitize "a<b\r\n ") = sanitize "a<b\r\n " ∧
    (forbiddenChar 'a' = false ∧ crlfChar 'a' = false) :=
  ⟨(C7_sanitize_idempotent_and_clean "a<b\r\n ").1,
   (C7_sanitize_idempotent_and_clean "a<b\r\n ").2 'a' (by decide)⟩

/-- C1 fails on the code: `sanitize` does not strip the forbidden characters,
it replaces each run of them with an underscore (`'_'`), so the composed
store path for the claim's concrete inputs is
`novels/my-novels/斗罗大陆/007_Chapter 7_ Awakening.md`, not
`novels/my-novels/斗罗大陆/007_Chapter 7 Awakening.md`. -/
theorem C1_counterexample :
    rawPath "novels/my-novels/" (fileName "斗罗大陆" "Chapter 7: Awakening" 7)
      ≠ "novels/my-novels/斗罗大陆/007_Chapter 7 Awakening.md" := by
  decide

/-- C1 (amended): sanitization replaces each maximal run of the characters
`< > : " / \ | ? *` with a single underscore, strips CR/LF, trims
leading/trailing whitespace and otherwise preserves the input characters
(in particular Unicode letters); consequently the composed store path for
novel title "斗罗大陆", path prefix "novels/my-novels/", chapter id 7 and
chapter title "Chapter 7: Awakening" is exactly
`novels/my-novels/斗罗大陆/007_Chapter 7_ Awakening.md`. -/
theorem C1_sanitized_path_amended (s : String) :
    rawPath "novels/my-novels/" (fileName "斗罗大陆" "Chapter 7: Awakening" 7)
      = "novels/my-novels/斗罗大陆/007_Chapter 7_ Awakening.md" ∧
    ∀ c ∈ (sanitize s).data,
      c = '_' ∨ (c ∈ s.data ∧ forbiddenChar c = false ∧ crlfChar c = false) := by
  refine ⟨by decide, ?_⟩
  intro c hc
  exact mem_sanitizeList hc

theorem C1_witness :
    rawPath "novels/my-novels/" (fileName "斗罗大陆" "Chapter 7: Awakening" 7)
      = "novels/my-novels/斗罗大陆/007_Chapter 7_ Awakening.md" ∧
    ('b' = '_' ∨ ('b' ∈ ("a:b" : String).data ∧ forbiddenChar 'b' = false ∧
      crlfChar 'b' = false)) :=
  ⟨(C1_sanitized_path_amended "a:b").1,
   (C1_sanitized_path_amended "a:b").2 'b' (by decide)⟩

/- ### The data model (types.ts) -/

/-- `Chapter.status` from types.ts: `'pending' | 'crawling' | 'success' | 'error'`. -/
inductive Status
  | pending
  | crawling
  | success
  | error
deriving DecidableEq, Repr, Inhabited

/-- `Chapter` from types.ts. -/
structure Chapter where
  id : Nat
  title : String
  status : Status
  content : Option String := none
deriving DecidableEq, Repr, Inhabited

/-- `AppState` from types.ts. -/
inductive AppState
  | setup
  | search
  | preview
  | crawling
  | finished
deriving DecidableEq, Repr

/-- `LogLevel` from types.ts. -/
inductive LogLevel
  | info
  | success
  | warning
  | error
deriving DecidableEq, Repr

/-- A log entry (types.ts `LogEntry`); the random id and wall-clock timestamp
carry no logic and are omitted. -/
structure LogEntry where
  message : String
  level : LogLevel
deriving DecidableEq, Repr

/-- `NovelMetadata` from types.ts. -/
structure NovelMetadata where
  title : String
  author : String
  description : String
  totalChaptersEstimate : Nat
  chapters : List String
  sources : List String := []
deriving DecidableEq, Repr

/-- The controller's mutable state in App.tsx: the `chapters`,
`crawlingActive`, `appState`, `progress` and `logs` React states, for a
session whose novel metadata has been found. -/
structure CrawlState where
  novel : NovelMetadata
  chapters : List Chapter
  crawlingActive : Bool
  appState : AppState
  progress : ℚ
  log : List LogEntry
deriving DecidableEq, Repr

/- ### Controller operations from App.tsx -/

/-- Queue initialization from App.tsx lines 97-102: one `Chapter` per
discovered title, 1-based ids in discovery order, all `pending`.
`idx` is the 0-based position of the next title, as in
`result.chapters.map((title, idx) => ({id: idx + 1, title, status: 'pending'}))`. -/
def initChaptersFrom (idx : Nat) : List String → List Chapter
  | [] => []
  | t :: ts =>
      { id := idx + 1, title := t, status := Status.pending } :: initChaptersFrom (idx + 1) ts

/-- The initialized chapter queue (App.tsx lines 97-102). -/
def initChapters (titles : List String) : List Chapter :=
  initChaptersFrom 0 titles

/-- The session right after a successful search (App.tsx lines 92-103):
queue initialized, `preview` state, crawl not running. `progress` starts at
the React initial value 0 (line 47). -/
def initSession (nv : NovelMetadata) (log : List LogEntry) : CrawlState :=
  { novel := nv, chapters := initChapters nv.chapters, crawlingActive := false,
    appState := AppState.preview, progress := 0, log := log }

/-- `startCrawling` from App.tsx lines 114-119: guarded by a non-empty
queue (the `!novel` guard is vacuous here since `CrawlState` carries the
metadata of a found novel). -/
def startCrawling (s : CrawlState) : CrawlState :=
  if s.chapters.length = 0 then s
  else { s with appState := AppState.crawling, crawlingActive := true,
                log := s.log ++ [⟨"Starting batch crawl process...", LogLevel.info⟩] }

/-- `stopCrawling` from App.tsx lines 121-124. -/
def stopCrawling (s : CrawlState) : CrawlState :=
  { s with crawlingActive := false,
           log := s.log ++ [⟨"Crawling paused by user.", LogLevel.warning⟩] }

/-- Replace the element at index `i` by `f` of it (the functional update
`next[chapterIndex] = { ...next[chapterIndex], ... }` on a copy of the
array, App.tsx lines 148-152 and 187-198). Out-of-range indices leave the
list unchanged. -/
def listModify (f : Chapter → Chapter) : Nat → List Chapter → List Chapter
  | _, [] => []
  | 0, c :: cs => f c :: cs
  | n + 1, c :: cs => c :: listModify f n cs

/-- The first `setChapters` of a tick (App.tsx lines 148-152): mark the
selected chapter `crawling`. -/
def markCrawling (cs : List Chapter) (i : Nat) : List Chapter :=
  listModify (fun c => { c with status := Status.crawling }) i cs

/-- The second `setChapters` of a tick (App.tsx lines 185-199): `success`
with the fetched content stored, or `error` with the content field spread
through unchanged. -/
def resolveChapter (content : String) (uploadOk : Bool) (c : Chapter) : Chapter :=
  if uploadOk then { c with status := Status.success, content := some content }
  else { c with status := Status.error }

/-- The chapter-status predicate of the progress computation
(App.tsx line 202). -/
def isTerminal (c : Chapter) : Bool :=
  c.status = Status.success || c.status = Status.error

/-- `chapters.filter(c => c.status === 'success' || c.status === 'error').length`
(App.tsx line 202). -/
def terminalCount (cs : List Chapter) : Nat :=
  (cs.filter isTerminal).length

/-- The index selected by a tick: `chapters.findIndex(c => c.status === 'pending')`
(App.tsx line 136), `none` for JS `-1`. -/
def selectedIndex (cs : List Chapter) : Option Nat :=
  List.findIdx? (fun c => decide (c.status = Status.pending)) cs

/-- One complete scheduler tick: `processNextChapter` from App.tsx
lines 132-211, run from timer fire to its final state update.  The two
outbound network calls are explicit parameters: `content` is the string the
provider fetch returned (geminiService, see `fetchChapterContent`) and
`uploadOk`/`uploadMsg` the outcome of `uploadFileToGitHub`.  The component
stays mounted.  The `completed` count is taken from the pre-tick queue
snapshot plus one, exactly as the code's closure over `chapters` does
(App.tsx line 202), and `progress` is the percentage
`(completed / chapters.length) * 100` (line 203). -/
def tick (s : CrawlState) (content : String) (uploadOk : Bool) (uploadMsg : String) :
    CrawlState :=
  match selectedIndex s.chapters with
  | none =>
      { s with log := s.log ++ [⟨"All scheduled chapters processed.", LogLevel.success⟩],
               crawlingActive := false,
               appState := AppState.finished }
  | some i =>
      let chapter := s.chapters.getD i default
      let chapters1 := markCrawling s.chapters i
      let chapters2 := listModify (resolveChapter content uploadOk) i chapters1
      let completed := terminalCount s.chapters + 1
      { s with
        chapters := chapters2,
        log := s.log ++
          [⟨"Fetching content: " ++ chapter.title, LogLevel.info⟩,
           ⟨"Uploading to GitHub: " ++ chapter.title, LogLevel.info⟩,
           if uploadOk then ⟨"Saved " ++ chapter.title ++ " successfully.", LogLevel.success⟩
           else ⟨"Failed to save " ++ chapter.title ++ ": " ++ uploadMsg, LogLevel.error⟩],
        progress := ((completed : ℚ) / (s.chapters.length : ℚ)) * 100 }

/-- Number of chapters currently in status `crawling`. -/
def crawlingCount (cs : List Chapter) : Nat :=
  cs.countP (fun c => decide (c.status = Status.crawling))

/- ### List lemmas for the queue updates -/

theorem length_listModify (f : Chapter → Chapter) :
    ∀ (i : Nat) (cs : List Chapter), (listModify f i cs).length = cs.length := by
  intro i cs
  induction cs generalizing i with
  | nil => cases i <;> rfl
  | cons a t ih =>
    cases i with
    | zero => rfl
    | succ n => simpa [listModify] using ih n

theorem listModify_getElem? (f : Chapter → Chapter) :
    ∀ (i j : Nat) (cs : List Chapter),
      (listModify f i cs)[j]? = if i = j then cs[j]?.map f else cs[j]? := by
  intro i j cs
  induction cs generalizing i j with
  | nil => simp [listModify]
  | cons a t ih =>
    cases i with
    | zero =>
      cases j with
      | zero => simp [listModify]
      | succ m => simp [listModify]
    | succ n =>
      cases j with
      | zero => simp [listModify]
      | succ m =>
        simp only [listModify, List.getElem?_cons_succ]
        rw [ih n m]
        by_cases h : n = m <;> simp [h]

theorem listModify_listModify (f g : Chapter → Chapter) :
    ∀ (i : Nat) (cs : List Chapter),
      listModify g i (listModify f i cs) = listModify (fun c => g (f c)) i cs := by
  intro i cs
  induction cs generalizing i with
  | nil => cases i <;> rfl
  | cons a t ih =>
    cases i with
    | zero => rfl
    | succ n => simpa [listModify] using ih n

theorem countP_listModify (p : Chapter → Bool) (f : Chapter → Chapter) :
    ∀ (i : Nat) (cs : List Chapter) (c : Chapter), cs[i]? = some c →
      (listModify f i cs).countP p + (if p c then 1 else 0)
        = cs.countP p + (if p (f c) then 1 else 0) := by
  intro i cs
  induction cs generalizing i with
  | nil => intro c h; simp at h
  | cons a t ih =>
    intro c h
    cases i with
    | zero =>
      simp only [List.getElem?_cons_zero, Option.some.injEq] at h
      subst h
      simp only [listModify, List.countP_cons]
      omega
    | succ n =>
      simp only [List.getElem?_cons_succ] at h
      have := ih n c h
      simp only [listModify, List.countP_cons]
      omega

theorem mem_initChaptersFrom {c : Chapter} :
    ∀ {k : Nat} {ts : List String}, c ∈ initChaptersFrom k ts →
      c.status = Status.pending := by
  intro k ts
  induction ts generalizing k with
  | nil => intro h; simp [initChaptersFrom] at h
  | cons t ts ih =>
    intro h
    rcases List.mem_cons.mp h with rfl | h'
    · rfl
    · exact ih h'

theorem crawlingCount_initChapters (titles : List String) :
    crawlingCount (initChapters titles) = 0 := by
  rw [crawlingCount, List.countP_eq_zero]
  intro c hc
  have := mem_initChaptersFrom hc
  simp [this]

theorem terminalCount_eq_countP (cs : List Chapter) :
    terminalCount cs = cs.countP isTerminal := by
  rw [terminalCount, List.countP_eq_length_filter]

/-- Characterization of the selected index: it is in range, points at a
`pending` chapter, and every earlier chapter is not `pending`. -/
theorem selectedIndex_spec {cs : List Chapter} {i : Nat}
    (h : selectedIndex cs = some i) :
    ∃ hlt : i < cs.length,
      cs[i].status = Status.pending ∧
      ∀ j (hj : j < i), (cs.get ⟨j, by omega⟩).status ≠ Status.pending := by
  rw [selectedIndex, List.findIdx?_eq_some_iff_findIdx_eq] at h
  obtain ⟨hlt, hfind⟩ := h
  refine ⟨hlt, ?_, ?_⟩
  · have hg : cs[List.findIdx (fun c => decide (c.status = Status.pending)) cs]?
        = some cs[i] := by
      rw [hfind]
      exact List.getElem?_eq_getElem hlt
    have := List.findIdx_of_getElem?_eq_some hg
    simpa using this
  · intro j hj
    have := @List.not_of_lt_findIdx _ (fun c => decide (c.status = Status.pending))
      cs j (by omega)
    simpa using this

theorem startCrawling_chapters (s : CrawlState) :
    (startCrawling s).chapters = s.chapters := by
  rw [startCrawling]
  split <;> rfl

theorem stopCrawling_chapters (s : CrawlState) :
    (stopCrawling s).chapters = s.chapters := rfl

/- ### Equations for one tick -/

theorem tick_none_eq {s : CrawlState} {content msg : String} {ok : Bool}
    (h : selectedIndex s.chapters = none) :
    tick s content ok msg =
      { s with
        log := s.log ++ [⟨"All scheduled chapters processed.", LogLevel.success⟩],
        crawlingActive := false,
        appState := AppState.finished } := by
  unfold tick
  rw [h]

theorem tick_some_chapters {s : CrawlState} {content msg : String} {ok : Bool}
    {i : Nat} (h : selectedIndex s.chapters = some i) :
    (tick s content ok msg).chapters =
      listModify (fun c => resolveChapter content ok { c with status := Status.crawling })
        i s.chapters := by
  unfold tick
  rw [h]
  show listModify (resolveChapter content ok) i (markCrawling s.chapters i) = _
  rw [markCrawling, listModify_listModify]

theorem tick_some_flags {s : CrawlState} {content msg : String} {ok : Bool}
    {i : Nat} (h : selectedIndex s.chapters = some i) :
    (tick s content ok msg).crawlingActive = s.crawlingActive ∧
    (tick s content ok msg).appState = s.appState := by
  unfold tick
  rw [h]
  exact ⟨rfl, rfl⟩

theorem tick_some_progress {s : CrawlState} {content msg : String} {ok : Bool}
    {i : Nat} (h : selectedIndex s.chapters = some i) :
    (tick s content ok msg).progress =
      (((terminalCount s.chapters + 1 : Nat) : ℚ) / (s.chapters.length : ℚ)) * 100 := by
  unfold tick
  rw [h]

theorem tick_some_log {s : CrawlState} {content msg : String} {ok : Bool}
    {i : Nat} (h : selectedIndex s.chapters = some i) :
    (tick s content ok msg).log = s.log ++
      [⟨"Fetching content: " ++ (s.chapters.getD i default).title, LogLevel.info⟩,
       ⟨"Uploading to GitHub: " ++ (s.chapters.getD i default).title, LogLevel.info⟩,
       if ok then
         ⟨"Saved " ++ (s.chapters.getD i default).title ++ " successfully.",
          LogLevel.success⟩
       else
         ⟨"Failed to save " ++ (s.chapters.getD i default).title ++ ": " ++ msg,
          LogLevel.error⟩] := by
  unfold tick
  rw [h]

/-- The one terminal transition of a tick raises the terminal count by
exactly one. -/
theorem terminalCount_tick {s : CrawlState} {content msg : String} {ok : Bool}
    {i : Nat} (h : selectedIndex s.chapters = some i) :
    terminalCount (tick s content ok msg).chapters = terminalCount s.chapters + 1 := by
  obtain ⟨hlt, hpend, _⟩ := selectedIndex_spec h
  have hget : s.chapters[i]? = some s.chapters[i] := List.getElem?_eq_getElem hlt
  have hcount := countP_listModify isTerminal
    (fun c => resolveChapter content ok { c with status := Status.crawling })
    i s.chapters _ hget
  have h1 : isTerminal s.chapters[i] = false := by
    rw [isTerminal, hpend]; rfl
  have h2 : isTerminal
      (resolveChapter content ok { s.chapters[i] with status := Status.crawling })
        = true := by
    rw [resolveChapter]
    split <;> rfl
  rw [h1, h2] at hcount
  rw [tick_some_chapters h, terminalCount_eq_countP, terminalCount_eq_countP]
  simp at hcount
  omega

/- ### Concrete example session used by the witnesses -/

def nvEx : NovelMetadata :=
  { title := "N", author := "A", description := "D",
    totalChaptersEstimate := 2, chapters := ["Ch1", "Ch2"] }

def sEx : CrawlState :=
  startCrawling (initSession nvEx [])

/-- A session whose queue has no pending chapter left (here: empty). -/
def sDone : CrawlState :=
  { novel := nvEx, chapters := [], crawlingActive := true,
    appState := AppState.crawling, progress := 0, log := [] }

/- ### C2: selection rule, termination, resumability -/

/-- C2: on every tick the controller selects the first chapter in queue
order whose status is `pending`; when no pending chapter exists the running
flag is cleared and the session moves to the terminal `finished` state
(and a tick that has a pending candidate leaves both flags unchanged, so
this is the only happy-path termination); `startCrawling` after
`stopCrawling` leaves the queue untouched, so the next tick resumes from
the same first remaining pending chapter. -/
theorem C2_selection_resumability (s : CrawlState) (content msg : String) (ok : Bool) :
    (∀ i, selectedIndex s.chapters = some i →
      (∃ hlt : i < s.chapters.length,
        s.chapters[i].status = Status.pending ∧
        ∀ j (hj : j < i),
          (s.chapters.get ⟨j, Nat.lt_trans hj hlt⟩).status ≠ Status.pending) ∧
      (tick s content ok msg).crawlingActive = s.crawlingActive ∧
      (tick s content ok msg).appState = s.appState) ∧
    (selectedIndex s.chapters = none →
      (tick s content ok msg).crawlingActive = false ∧
      (tick s content ok msg).appState = AppState.finished ∧
      (tick s content ok msg).chapters = s.chapters) ∧
    ((startCrawling (stopCrawling s)).chapters = s.chapters ∧
      selectedIndex (startCrawling (stopCrawling s)).chapters =
        selectedIndex s.chapters) := by
  refine ⟨?_, ?_, ?_⟩
  · intro i h
    obtain ⟨hlt, hpend, hfirst⟩ := selectedIndex_spec h
    exact ⟨⟨hlt, hpend, hfirst⟩, tick_some_flags h⟩
  · intro h
    rw [tick_none_eq h]
    exact ⟨rfl, rfl, rfl⟩
  · have hch : (startCrawling (stopCrawling s)).chapters = s.chapters := by
      rw [startCrawling_chapters, stopCrawling_chapters]
    exact ⟨hch, by rw [hch]⟩

theorem C2_witness :
    ((∃ hlt : 0 < sEx.chapters.length,
        sEx.chapters[0].status = Status.pending ∧
        ∀ j (hj : j < 0),
          (sEx.chapters.get ⟨j, Nat.lt_trans hj hlt⟩).status ≠ Status.pending) ∧
      (tick sEx "txt" true "").crawlingActive = sEx.crawlingActive ∧
      (tick sEx "txt" true "").appState = sEx.appState) ∧
    ((tick sDone "txt" true "").crawlingActive = false ∧
      (tick sDone "txt" true "").appState = AppState.finished ∧
      (tick sDone "txt" true "").chapters = sDone.chapters) ∧
    ((startCrawling (stopCrawling sEx)).chapters = sEx.chapters ∧
      selectedIndex (startCrawling (stopCrawling sEx)).chapters =
        selectedIndex sEx.chapters) :=
  ⟨(C2_selection_resumability sEx "txt" "" true).1 0 (by decide),
   (C2_selection_resumability sDone "txt" "" true).2.1 (by decide),
   (C2_selection_resumability sEx "txt" "" true).2.2⟩

/- ### C3, C4: the overlapping-tick races of the crawler effect -/

/-- The queue snapshot closed over by the first effect instance at crawl
start: two chapters, both `pending` (App.tsx lines 97-102). -/
def raceQueue0 : List Chapter :=
  initChapters ["Ch1", "Ch2"]

/-- After tick A's first `setChapters` (App.tsx line 148): chapter 1 is
`crawling`.  This update makes the `chapters`-dependent effect (line 220)
re-run and schedule a fresh 500 ms timer (line 214) while tick A is still
awaiting its fetch (line 157); the new effect instance closes over this
snapshot. -/
def raceQueue1 : List Chapter :=
  markCrawling raceQueue0 0

/-- After tick B — fired by that fresh timer during A's fetch — marks the
first chapter that is `pending` in its snapshot (`findIndex`, line 136;
`setChapters`, line 148): chapters 1 and 2 are now both `crawling`. -/
def raceQueue2 : List Chapter :=
  markCrawling raceQueue1 1

/-- Tick A's fetch returns and its upload succeeds: A's second
`setChapters` (App.tsx lines 187-191) commits chapter 1 as `success`. -/
def raceQueue3 : List Chapter :=
  listModify (resolveChapter "textA" true) 0 raceQueue2

/-- Tick B's upload succeeds: its second `setChapters` commits chapter 2
as `success`; every chapter of the queue is now terminal. -/
def raceQueue4 : List Chapter :=
  listModify (resolveChapter "textB" true) 1 raceQueue3

/-- Tick A's progress write (App.tsx lines 202-203): `completed` is the
terminal count of A's stale closure snapshot `raceQueue0` plus one. -/
def raceProgressA : ℚ :=
  (((terminalCount raceQueue0 + 1 : Nat) : ℚ) / (raceQueue0.length : ℚ)) * 100

/-- Tick B's progress write, the last one of the run: `completed` is the
terminal count of B's stale closure snapshot `raceQueue1` plus one. -/
def raceProgressB : ℚ :=
  (((terminalCount raceQueue1 + 1 : Nat) : ℚ) / (raceQueue1.length : ℚ)) * 100

/-- C3 is right and the code is wrong (code bug): under the crawler
effect's real scheduling the status invariants fail.  (i) Because the
effect depends on `chapters` (App.tsx line 220), tick A's `crawling` mark
(line 148) re-runs the effect, which schedules a new 500 ms tick
(line 214) while A still awaits its fetch (line 157); that tick B's
`findIndex` selects the next pending chapter of the updated snapshot
(`selectedIndex raceQueue1 = some 1`) and marks it too, so in `raceQueue2`
two chapters are `crawling` at once.  (ii) Tick A's final
`timer = setTimeout(processNextChapter, 2000)` (line 207) is assigned
after A's effect instance was already cleaned up, so it is never cleared;
when it fires, A's closure re-runs `findIndex` on its stale snapshot
(`selectedIndex raceQueue0 = some 0`) and its functional `setChapters`
update re-marks the now-`success` chapter 1 of the current queue as
`crawling` — a terminal status changes again. -/
theorem C3_race_two_crawling_and_reversion :
    selectedIndex raceQueue1 = some 1 ∧
    crawlingCount raceQueue2 = 2 ∧
    selectedIndex raceQueue0 = some 0 ∧
    (raceQueue3[0]?).map Chapter.status = some Status.success ∧
    ((markCrawling raceQueue3 0)[0]?).map Chapter.status
      = some Status.crawling := by
  refine ⟨?_, ?_, ?_, ?_, ?_⟩ <;> decide

/-- C4 is right about the intent and the code is wrong (code bug): in the
same overlapped run both progress writes (App.tsx lines 202-203) compute
`completed` from stale snapshots, so each evaluates to 50 and the run ends
with stored progress 50 although both of the 2 chapters are terminal: the
stored value equals neither the claim's exact fraction `k/n` (here 1) nor
even the code's own percent scale `(k/n) * 100` (here 100); a stale write
landing after a correct one can likewise lower the value, so monotonicity
fails as well. -/
theorem C4_race_progress_stale :
    raceProgressA = 50 ∧
    raceProgressB = 50 ∧
    terminalCount raceQueue4 = 2 ∧
    raceQueue4.length = 2 ∧
    raceProgressB ≠ (terminalCount raceQueue4 : ℚ) / (raceQueue4.length : ℚ) ∧
    raceProgressB
      ≠ ((terminalCount raceQueue4 : ℚ) / (raceQueue4.length : ℚ)) * 100 := by
  have h0 : terminalCount raceQueue0 = 0 := by decide
  have h1 : terminalCount raceQueue1 = 0 := by decide
  have h4 : terminalCount raceQueue4 = 2 := by decide
  have l0 : raceQueue0.length = 2 := by decide
  have l1 : raceQueue1.length = 2 := by decide
  have l4 : raceQueue4.length = 2 := by decide
  refine ⟨?_, ?_, h4, l4, ?_, ?_⟩
  · simp only [raceProgressA]
    rw [h0, l0]
    norm_num
  · simp only [raceProgressB]
    rw [h1, l1]
    norm_num
  · simp only [raceProgressB]
    rw [h1, l1, h4, l4]
    norm_num
  · simp only [raceProgressB]
    rw [h1, l1, h4, l4]
    norm_num

/- ### C6: the commit of one tick and its frame -/

/-- C6: within one tick, after the upload completes the selected chapter
becomes `success` with the fetched content stored when the upload
succeeded, and `error` with the content field untouched when it failed; its
id and title are unchanged (visible in the record updates), every other
chapter is unchanged, and on failure the failure message is recorded in the
log. -/
theorem C6_commit_frame (s : CrawlState) (content msg : String) (ok : Bool)
    (i : Nat) (c : Chapter) (h : selectedIndex s.chapters = some i)
    (hc : s.chapters[i]? = some c) :
    (ok = true → (tick s content ok msg).chapters[i]? =
      some { id := c.id, title := c.title, status := Status.success,
             content := some content }) ∧
    (ok = false → (tick s content ok msg).chapters[i]? =
      some { id := c.id, title := c.title, status := Status.error,
             content := c.content }) ∧
    (∀ (j : Nat), j ≠ i → (tick s content ok msg).chapters[j]? = s.chapters[j]?) ∧
    (ok = false →
      (⟨"Failed to save " ++ c.title ++ ": " ++ msg, LogLevel.error⟩ : LogEntry)
        ∈ (tick s content ok msg).log) := by
  have hch := @tick_some_chapters s content msg ok i h
  have hgetmod := listModify_getElem?
    (fun c => resolveChapter content ok { c with status := Status.crawling })
  refine ⟨?_, ?_, ?_, ?_⟩
  · intro hok
    subst hok
    rw [hch, hgetmod, if_pos rfl, hc]
    simp [resolveChapter]
  · intro hok
    subst hok
    rw [hch, hgetmod, if_pos rfl, hc]
    simp [resolveChapter]
  · intro j hj
    rw [hch, hgetmod, if_neg (Ne.symm hj)]
  · intro hok
    subst hok
    have hD : s.chapters.getD i default = c := by
      rw [List.getD_eq_getElem?_getD, hc]
      rfl
    rw [tick_some_log h, hD]
    simp

theorem C6_witness :
    ((false : Bool) = true → (tick sEx "txt" false "boom").chapters[0]? =
      some { id := 1, title := "Ch1", status := Status.success,
             content := some "txt" }) ∧
    ((false : Bool) = false → (tick sEx "txt" false "boom").chapters[0]? =
      some { id := 1, title := "Ch1", status := Status.error, content := none }) ∧
    (∀ (j : Nat), j ≠ 0 → (tick sEx "txt" false "boom").chapters[j]? =
      sEx.chapters[j]?) ∧
    ((false : Bool) = false →
      (⟨"Failed to save " ++ "Ch1" ++ ": " ++ "boom", LogLevel.error⟩ : LogEntry)
        ∈ (tick sEx "txt" false "boom").log) :=
  C6_commit_frame sEx "txt" "boom" false 0
    { id := 1, title := "Ch1", status := Status.pending, content := none }
    (by decide) (by decide)

/- ### geminiService.fetchChapterContent (C5) -/

/-- JS truthiness of `x || d` for an optional string: `undefined`/`null`
and the empty string fall back to the default. -/
def jsOrElse : Option String → String → String
  | none, d => d
  | some t, d => if t = "" then d else t

/-- A `generateContent` response as far as `fetchChapterContent` reads it:
`response.text` (`none` models JS `undefined`) and the grounding-chunk web
URIs collected in lines 99-106 of geminiService.ts. -/
structure GenResponse where
  text : Option String
  groundingUris : List String
deriving Repr

/-- `[...new Set(xs)]`: deduplicate, keeping the first occurrence of each
element in order.  `seen` holds the elements already emitted. -/
def dedupFirstAux (seen : List String) : List String → List String
  | [] => []
  | a :: l =>
      if a ∈ seen then dedupFirstAux seen l
      else a :: dedupFirstAux (a :: seen) l

/-- `[...new Set(xs)]` from geminiService.ts line 112. -/
def dedupFirst (l : List String) : List String :=
  dedupFirstAux [] l

/-- `fetchChapterContent` from geminiService.ts lines 69-121.  The outcome
of the `ai.models.generateContent` call is an explicit parameter:
`Except.error e` when the call threw (`e` is the interpolation `${error}`),
`Except.ok r` when it returned.  The Lean function is total: the source
catches every fault and always returns a string. -/
def fetchChapterContent (novelTitle chapterTitle : String)
    (outcome : Except String GenResponse) : String :=
  match outcome with
  | Except.error e =>
      "Error retrieving content for " ++ chapterTitle ++ ". \n\nSystem Error: " ++ e
  | Except.ok r =>
      let content := jsOrElse r.text "Error: No content generated."
      let uniqueSources := dedupFirst r.groundingUris
      if 0 < uniqueSources.length then
        content ++ "\n\n---\n**Sources:**\n" ++
          String.intercalate "\n" (uniqueSources.map (fun s => "- <" ++ s ++ ">"))
      else content

theorem ne_empty_iff_length_pos (s : String) : s ≠ "" ↔ 0 < s.length := by
  cases s with
  | mk data =>
    cases data with
    | nil => simp
    | cons a t =>
      constructor
      · intro _
        show 0 < (a :: t).length
        simp
      · intro _ h
        exact absurd (congrArg String.data h) (by simp)

theorem jsOrElse_ne_empty {o : Option String} {d : String} (hd : d ≠ "") :
    jsOrElse o d ≠ "" := by
  cases o with
  | none => exact hd
  | some t =>
    show (if t = "" then d else t) ≠ ""
    split
    · exact hd
    · assumption

/-- C5 fails on the code in one detail: when the provider returns an empty
result (no thrown error, but no text) the placeholder is
`"Error: No content generated."`, not the `"Error retrieving content..."`
diagnostic of the thrown-error branch: its first 16 characters are not
`"Error retrieving"`. -/
theorem C5_counterexample :
    fetchChapterContent "N" "Ch1" (Except.ok ⟨none, []⟩)
      = "Error: No content generated." ∧
    (fetchChapterContent "N" "Ch1" (Except.ok ⟨none, []⟩)).data.take 16
      ≠ "Error retrieving".data := by
  constructor
  · rfl
  · decide

/-- C5 (amended): `fetchChapterContent` never raises — its embedding is a
total function into `String` because the source catches every fault — and
it never returns the empty string, so the controller always proceeds to the
persistence step with a non-empty content; when the provider throws it
returns the diagnostic `"Error retrieving content for <chapter>. \n\nSystem
Error: <error>"`, and when the provider returns an empty result (and no
grounding sources) it returns the placeholder
`"Error: No content generated."`. -/
theorem C5_fetch_never_fails_amended (novelTitle chapterTitle : String)
    (outcome : Except String GenResponse) :
    fetchChapterContent novelTitle chapterTitle outcome ≠ "" ∧
    (∀ e, outcome = Except.error e →
      fetchChapterContent novelTitle chapterTitle outcome =
        "Error retrieving content for " ++ chapterTitle ++
          ". \n\nSystem Error: " ++ e) ∧
    (∀ r, outcome = Except.ok r → r.text.getD "" = "" → r.groundingUris = [] →
      fetchChapterContent novelTitle chapterTitle outcome =
        "Error: No content generated.") := by
  refine ⟨?_, ?_, ?_⟩
  · cases outcome with
    | error e =>
      rw [fetchChapterContent, ne_empty_iff_length_pos]
      simp only [String.length_append]
      have : 0 < "Error retrieving content for ".length := by decide
      omega
    | ok r =>
      rw [fetchChapterContent]
      have hcontent : jsOrElse r.text "Error: No content generated." ≠ "" :=
        jsOrElse_ne_empty (by decide)
      split
      · rw [ne_empty_iff_length_pos] at hcontent ⊢
        simp only [String.length_append]
        omega
      · exact hcontent
  · intro e he
    subst he
    rfl
  · intro r hr htext huris
    subst hr
    rw [fetchChapterContent]
    have h1 : jsOrElse r.text "Error: No content generated."
        = "Error: No content generated." := by
      cases ht : r.text with
      | none => rfl
      | some t =>
        rw [ht] at htext
        simp only [Option.getD_some] at htext
        show (if t = "" then "Error: No content generated." else t)
          = "Error: No content generated."
        simp [htext]
    rw [huris]
    simp [dedupFirst, dedupFirstAux, h1]

theorem C5_witness :
    fetchChapterContent "N" "Ch1" (Except.error "boom") ≠ "" ∧
    fetchChapterContent "N" "Ch1" (Except.error "boom") =
      "Error retrieving content for " ++ "Ch1" ++ ". \n\nSystem Error: " ++ "boom" :=
  ⟨(C5_fetch_never_fails_amended "N" "Ch1" (Except.error "boom")).1,
   (C5_fetch_never_fails_amended "N" "Ch1" (Except.error "boom")).2.1 "boom" rfl⟩

/- ### UTF-8 and base64 (the content encoding of githubService.ts line 176) -/

/-- UTF-8 encoding of one Unicode scalar value as a list of byte values. -/
def utf8EncodeChar (c : Char) : List Nat :=
  if c.toNat < 0x80 then [c.toNat]
  else if c.toNat < 0x800 then [0xC0 + c.toNat / 64, 0x80 + c.toNat % 64]
  else if c.toNat < 0x10000 then
    [0xE0 + c.toNat / 4096, 0x80 + (c.toNat / 64) % 64, 0x80 + c.toNat % 64]
  else
    [0xF0 + c.toNat / 262144, 0x80 + (c.toNat / 4096) % 64,
     0x80 + (c.toNat / 64) % 64, 0x80 + c.toNat % 64]

/-- UTF-8 encoding of a scalar-value sequence. -/
def utf8Encode (cs : List Char) : List Nat :=
  cs.flatMap utf8EncodeChar

/-- UTF-8 decoding of a byte list back into scalar values, as a byte-wise
state machine: the state `some (k, acc)` means `k + 1` continuation bytes
are still expected, with `acc` the scalar bits read so far; `none` means
the next byte starts a new sequence.  Returns `none` on a truncated
sequence; the inverse witness for `utf8Encode`. -/
def utf8DecodeAux : Option (Nat × Nat) → List Nat → Option (List Char)
  | none, [] => some []
  | some _, [] => none
  | none, b :: rest =>
      if b < 0x80 then (utf8DecodeAux none rest).map (fun cs => Char.ofNat b :: cs)
      else if b < 0xE0 then utf8DecodeAux (some (0, b - 0xC0)) rest
      else if b < 0xF0 then utf8DecodeAux (some (1, b - 0xE0)) rest
      else utf8DecodeAux (some (2, b - 0xF0)) rest
  | some (0, acc), b :: rest =>
      (utf8DecodeAux none rest).map
        (fun cs => Char.ofNat (acc * 64 + (b - 0x80)) :: cs)
  | some (k + 1, acc), b :: rest =>
      utf8DecodeAux (some (k, acc * 64 + (b - 0x80))) rest

/-- UTF-8 decoding of a byte list. -/
def utf8Decode (l : List Nat) : Option (List Char) :=
  utf8DecodeAux none l

/-- The base64 alphabet used by `btoa`. -/
def b64Chars : List Char :=
  "ABCDEFGHIJKLMNOPQRSTUVWXYZabcdefghijklmnopqrstuvwxyz0123456789+/".data

/-- Sextet value to base64 character. -/
def b64Char (n : Nat) : Char :=
  b64Chars.getD n 'A'

/-- Base64 character back to its sextet value. -/
def b64Val (c : Char) : Nat :=
  b64Chars.indexOf c

/-- `btoa` on a byte list: 3 bytes become 4 sextet characters; a final
partial group is padded with `=`. -/
def base64Encode : List Nat → List Char
  | [] => []
  | [b1] => [b64Char (b1 / 4), b64Char (b1 % 4 * 16), '=', '=']
  | [b1, b2] =>
      [b64Char (b1 / 4), b64Char (b1 % 4 * 16 + b2 / 16), b64Char (b2 % 16 * 4), '=']
  | b1 :: b2 :: b3 :: rest =>
      b64Char (b1 / 4) :: b64Char (b1 % 4 * 16 + b2 / 16) ::
        b64Char (b2 % 16 * 4 + b3 / 64) :: b64Char (b3 % 64) :: base64Encode rest

/-- Regroup sextet values into bytes (applied to the `=`-stripped list). -/
def b64Regroup : List Nat → List Nat
  | v1 :: v2 :: v3 :: v4 :: rest =>
      (v1 * 4 + v2 / 16) :: (v2 % 16 * 16 + v3 / 4) :: (v3 % 4 * 64 + v4) ::
        b64Regroup rest
  | [v1, v2] => [v1 * 4 + v2 / 16]
  | [v1, v2, v3] => [v1 * 4 + v2 / 16, v2 % 16 * 16 + v3 / 4]
  | _ => []

/-- Base64 decoding: strip the `=` padding, map characters to sextet
values, regroup into bytes; the inverse witness for `base64Encode`. -/
def base64Decode (cs : List Char) : List Nat :=
  b64Regroup ((cs.filter (fun c => decide (c ≠ '='))).map b64Val)

/-- The content encoding of githubService.ts line 176:
`btoa(unescape(encodeURIComponent(content)))`.  `encodeURIComponent`
percent-escapes the UTF-8 bytes of the string and `unescape` undoes the
`%XX` escapes bytewise, so the composition hands `btoa` exactly the UTF-8
bytes of `content`. -/
def base64Content (content : String) : String :=
  ⟨base64Encode (utf8Encode content.data)⟩

/-- Decoding of the transmitted value: base64-decode, then reverse the
UTF-8 "percent-encoding trick". -/
def decodeBase64Content (s : String) : Option String :=
  (utf8Decode (base64Decode s.data)).map String.mk

/- ### githubService.uploadFileToGitHub (C8, C10) -/

/-- `GitHubConfig` from types.ts. -/
structure GitHubConfig where
  token : String
  owner : String
  repo : String
  pathPrefix : String
deriving Repr

/-- The preliminary GET as far as the code reads it: `checkResponse.ok` and
`data.sha` of the parsed JSON (`none` models an absent field).
`Except.error ()` models a thrown fetch/json fault, caught and ignored in
githubService.ts lines 170-172. -/
structure GetResp where
  ok : Bool
  sha : Option String
deriving Repr

/-- The PUT response as far as the code reads it: `putResponse.ok`,
`putResponse.status` and the `message` field of the parsed error body
(`none` when the body does not parse or has no message).  A thrown fetch
fault is modelled as `Except.error e` with `e` the JS `error.message`
(`none` for a missing message). -/
structure PutResp where
  ok : Bool
  status : Nat
  errMessage : Option String
deriving Repr

/-- The JSON body of the PUT request: `{message, content(base64), sha?}`
(githubService.ts lines 180-186). -/
structure PutBody where
  message : String
  content : String
  sha : Option String
deriving Repr

/-- The result object of `uploadFileToGitHub`. -/
structure UploadResult where
  success : Bool
  message : Option String
deriving Repr

/-- The characters `encodeURIComponent` leaves unescaped (ECMA-262
`uriUnescaped`): ASCII alphanumerics and `- _ . ! ~ * ' ( )`. -/
def uriUnreserved (c : Char) : Bool :=
  (decide ('A' ≤ c) && decide (c ≤ 'Z')) ||
  (decide ('a' ≤ c) && decide (c ≤ 'z')) ||
  (decide ('0' ≤ c) && decide (c ≤ '9')) ||
  c = '-' || c = '_' || c = '.' || c = '!' || c = '~' || c = '*' ||
  c = '\'' || c = '(' || c = ')'

/-- The uppercase hex digits of a `%XX` escape. -/
def hexDigits : List Char :=
  "0123456789ABCDEF".data

/-- The `%XX` escape of one byte value. -/
def percentByte (b : Nat) : List Char :=
  ['%', hexDigits.getD (b / 16) '0', hexDigits.getD (b % 16) '0']

/-- `encodeURIComponent` on one character: kept raw when unreserved,
otherwise each UTF-8 byte is `%XX`-escaped. -/
def encodeURIChar (c : Char) : List Char :=
  if uriUnreserved c then [c]
  else (utf8EncodeChar c).flatMap percentByte

/-- `encodeURIComponent` on one path segment (it works character by
character, so it is the concatenation of the per-character encodings). -/
def encodeURIComponent (seg : List Char) : List Char :=
  seg.flatMap encodeURIChar

/-- JS `str.split('/')` on a character list (keeps empty segments,
`"" → [""]`). -/
def splitSlash : List Char → List (List Char)
  | [] => [[]]
  | c :: t =>
      if c = '/' then [] :: splitSlash t
      else
        match splitSlash t with
        | [] => [[c]]
        | s :: rest => (c :: s) :: rest

/-- JS `Array.prototype.join('/')` on encoded segments. -/
def joinSlash : List (List Char) → List Char
  | [] => []
  | [s] => s
  | s :: s2 :: rest => s ++ '/' :: joinSlash (s2 :: rest)

/-- `encodedPath` from githubService.ts line 153:
`rawPath.split('/').map(encodeURIComponent).join('/')`. -/
def encodedPath (pathPre fileNm : String) : String :=
  ⟨joinSlash ((splitSlash (rawPath pathPre fileNm).data).map encodeURIComponent)⟩

/-- `uploadFileToGitHub` from githubService.ts lines 142-215, as a function
of the two network outcomes; returns the PUT request body it sends together
with the result it returns.  The Lean function is total: the source catches
every fault and always returns a `{success, message?}` object. -/
def uploadFileToGitHub (cfg : GitHubConfig) (fileNm content commitMessage : String)
    (getOutcome : Except Unit GetResp)
    (putOutcome : Except (Option String) PutResp) :
    String × PutBody × UploadResult :=
  let url : String :=
    "https://api.github.com/repos/" ++ cfg.owner ++ "/" ++ cfg.repo ++
      "/contents/" ++ encodedPath cfg.pathPrefix fileNm
  let sha : Option String :=
    match getOutcome with
    | Except.error () => none
    | Except.ok r =>
        if r.ok then
          match r.sha with
          | none => none
          | some s => if s = "" then none else some s
        else none
  let body : PutBody :=
    { message := commitMessage, content := base64Content content, sha := sha }
  let result : UploadResult :=
    match putOutcome with
    | Except.error errMsg =>
        { success := false, message := some (jsOrElse errMsg "Network error") }
    | Except.ok p =>
        if p.ok then { success := true, message := none }
        else
          { success := false,
            message := some (jsOrElse p.errMessage ("HTTP " ++ toString p.status)) }
  (url, body, result)

/- ### C8: sha inclusion and result shape -/

/-- C8: `uploadFileToGitHub` includes a `sha` version token in the PUT body
iff the preliminary GET succeeded (a well-formed success response for an
existing file carries a non-empty `sha` — hypothesis `hget`); it never
raises (the embedding is a total function into a result object): on a
thrown PUT or a non-OK PUT response it returns `success := false` together
with a non-empty failure message, and it returns `success := true` exactly
when the PUT response is OK. -/
theorem C8_sha_and_result (cfg : GitHubConfig)
    (fileNm content commitMessage : String)
    (getOutcome : Except Unit GetResp) (putOutcome : Except (Option String) PutResp)
    (hget : ∀ r, getOutcome = Except.ok r → r.ok = true →
      ∃ s, r.sha = some s ∧ s ≠ "") :
    ((∃ s, (uploadFileToGitHub cfg fileNm content commitMessage
        getOutcome putOutcome).2.1.sha = some s) ↔
      (∃ r, getOutcome = Except.ok r ∧ r.ok = true)) ∧
    ((uploadFileToGitHub cfg fileNm content commitMessage
        getOutcome putOutcome).2.2.success = true ↔
      (∃ p, putOutcome = Except.ok p ∧ p.ok = true)) ∧
    ((uploadFileToGitHub cfg fileNm content commitMessage
        getOutcome putOutcome).2.2.success = false →
      ∃ m, (uploadFileToGitHub cfg fileNm content commitMessage
        getOutcome putOutcome).2.2.message = some m ∧ m ≠ "") := by
  refine ⟨?_, ?_, ?_⟩
  · cases getOutcome with
    | error u =>
      cases u
      show (∃ s, (none : Option String) = some s) ↔ _
      constructor
      · rintro ⟨s, hs⟩; cases hs
      · rintro ⟨r, hr, _⟩; cases hr
    | ok r =>
      by_cases hok : r.ok
      · obtain ⟨s, hs, hne⟩ := hget r rfl hok
        show (∃ s', (if r.ok then _ else none) = some s') ↔ _
        rw [if_pos hok, hs]
        show (∃ s', (if s = "" then none else some s) = some s') ↔ _
        rw [if_neg hne]
        exact ⟨fun _ => ⟨r, rfl, hok⟩, fun _ => ⟨s, rfl⟩⟩
      · show (∃ s', (if r.ok then _ else none) = some s') ↔ _
        rw [if_neg hok]
        constructor
        · rintro ⟨s, hs⟩; cases hs
        · rintro ⟨r', hr', hok'⟩
          cases hr'
          exact absurd hok' hok
  · cases putOutcome with
    | error e =>
      show (UploadResult.mk false _).success = true ↔ _
      constructor
      · intro h; cases h
      · rintro ⟨p, hp, _⟩; cases hp
    | ok p =>
      by_cases hok : p.ok
      · show (if p.ok then UploadResult.mk true none else _).success = true ↔ _
        rw [if_pos hok]
        exact ⟨fun _ => ⟨p, rfl, hok⟩, fun _ => rfl⟩
      · show (if p.ok then UploadResult.mk true none else _).success = true ↔ _
        rw [if_neg hok]
        constructor
        · intro h; cases h
        · rintro ⟨p', hp', hok'⟩
          cases hp'
          exact absurd hok' hok
  · intro hfail
    cases putOutcome with
    | error e =>
      exact ⟨jsOrElse e "Network error", rfl, jsOrElse_ne_empty (by decide)⟩
    | ok p =>
      by_cases hok : p.ok
      · rw [show (uploadFileToGitHub cfg fileNm content commitMessage
            getOutcome (Except.ok p)).2.2
          = (if p.ok then UploadResult.mk true none else
              UploadResult.mk false
                (some (jsOrElse p.errMessage ("HTTP " ++ toString p.status))))
          from rfl, if_pos hok] at hfail
        cases hfail
      · refine ⟨jsOrElse p.errMessage ("HTTP " ++ toString p.status), ?_, ?_⟩
        · show (if p.ok then UploadResult.mk true none else
              UploadResult.mk false _).message = _
          rw [if_neg hok]
        · apply jsOrElse_ne_empty
          rw [ne_empty_iff_length_pos]
          have : 0 < "HTTP ".length := by decide
          simp only [String.length_append]
          omega

theorem C8_witness :
    ((∃ s, (uploadFileToGitHub ⟨"t", "o", "r", "p/"⟩ "f.md" "c" "m"
        (Except.ok ⟨true, some "abc"⟩) (Except.ok ⟨false, 404, none⟩)).2.1.sha
          = some s) ↔
      (∃ r, (Except.ok ⟨true, some "abc"⟩ : Except Unit GetResp) = Except.ok r ∧
        r.ok = true)) ∧
    ((uploadFileToGitHub ⟨"t", "o", "r", "p/"⟩ "f.md" "c" "m"
        (Except.ok ⟨true, some "abc"⟩) (Except.ok ⟨false, 404, none⟩)).2.2.success
          = true ↔
      (∃ p, (Except.ok ⟨false, 404, none⟩ : Except (Option String) PutResp)
          = Except.ok p ∧ p.ok = true)) ∧
    ((uploadFileToGitHub ⟨"t", "o", "r", "p/"⟩ "f.md" "c" "m"
        (Except.ok ⟨true, some "abc"⟩) (Except.ok ⟨false, 404, none⟩)).2.2.success
          = false →
      ∃ m, (uploadFileToGitHub ⟨"t", "o", "r", "p/"⟩ "f.md" "c" "m"
        (Except.ok ⟨true, some "abc"⟩) (Except.ok ⟨false, 404, none⟩)).2.2.message
          = some m ∧ m ≠ "") :=
  C8_sha_and_result ⟨"t", "o", "r", "p/"⟩ "f.md" "c" "m"
    (Except.ok ⟨true, some "abc"⟩) (Except.ok ⟨false, 404, none⟩)
    (fun r hr _ => by
      cases hr
      exact ⟨"abc", rfl, by decide⟩)

/- ### C9: the content encoding is reversible -/

theorem char_toNat_lt (c : Char) : c.toNat < 0x110000 := by
  rcases c.valid with h | ⟨_, h⟩
  · exact Nat.lt_trans h (by norm_num)
  · exact h

theorem utf8EncodeChar_lt {c : Char} : ∀ b ∈ utf8EncodeChar c, b < 256 := by
  have hn := char_toNat_lt c
  intro b hb
  rw [utf8EncodeChar] at hb
  split at hb
  · simp at hb; omega
  · split at hb
    · simp at hb
      rcases hb with rfl | rfl <;> omega
    · split at hb
      · simp at hb
        rcases hb with rfl | rfl | rfl <;> omega
      · simp at hb
        rcases hb with rfl | rfl | rfl | rfl <;> omega

theorem b64Val_b64Char : ∀ x : Fin 64, b64Val (b64Char x.val) = x.val := by
  decide

theorem b64Char_ne_pad : ∀ x : Fin 64, b64Char x.val ≠ '=' := by
  decide

theorem b64Val_b64Char_of_lt {x : Nat} (h : x < 64) : b64Val (b64Char x) = x :=
  b64Val_b64Char ⟨x, h⟩

theorem b64Char_ne_pad_of_lt {x : Nat} (h : x < 64) : b64Char x ≠ '=' :=
  b64Char_ne_pad ⟨x, h⟩

theorem base64Decode_encode :
    ∀ (l : List Nat), (∀ b ∈ l, b < 256) → base64Decode (base64Encode l) = l
  | [] => fun _ => rfl
  | [b1] => fun h => by
    have h1 : b1 < 256 := h b1 (by simp)
    have e1 := b64Char_ne_pad_of_lt (x := b1 / 4) (by omega)
    have e2 := b64Char_ne_pad_of_lt (x := b1 % 4 * 16) (by omega)
    show b64Regroup ((List.filter _
      [b64Char (b1 / 4), b64Char (b1 % 4 * 16), '=', '=']).map b64Val) = [b1]
    rw [show List.filter (fun c => decide (c ≠ '='))
        [b64Char (b1 / 4), b64Char (b1 % 4 * 16), '=', '=']
      = [b64Char (b1 / 4), b64Char (b1 % 4 * 16)] by
        simp [List.filter, e1, e2]]
    rw [List.map_cons, List.map_cons, List.map_nil,
      b64Val_b64Char_of_lt (by omega), b64Val_b64Char_of_lt (by omega)]
    show [b1 / 4 * 4 + b1 % 4 * 16 / 16] = [b1]
    congr 1
    omega
  | [b1, b2] => fun h => by
    have h1 : b1 < 256 := h b1 (by simp)
    have h2 : b2 < 256 := h b2 (by simp)
    have e1 := b64Char_ne_pad_of_lt (x := b1 / 4) (by omega)
    have e2 := b64Char_ne_pad_of_lt (x := b1 % 4 * 16 + b2 / 16) (by omega)
    have e3 := b64Char_ne_pad_of_lt (x := b2 % 16 * 4) (by omega)
    show b64Regroup ((List.filter _
      [b64Char (b1 / 4), b64Char (b1 % 4 * 16 + b2 / 16),
       b64Char (b2 % 16 * 4), '=']).map b64Val) = [b1, b2]
    rw [show List.filter (fun c => decide (c ≠ '='))
        [b64Char (b1 / 4), b64Char (b1 % 4 * 16 + b2 / 16),
         b64Char (b2 % 16 * 4), '=']
      = [b64Char (b1 / 4), b64Char (b1 % 4 * 16 + b2 / 16),
         b64Char (b2 % 16 * 4)] by
        simp [List.filter, e1, e2, e3]]
    rw [List.map_cons, List.map_cons, List.map_cons, List.map_nil,
      b64Val_b64Char_of_lt (by omega), b64Val_b64Char_of_lt (by omega),
      b64Val_b64Char_of_lt (by omega)]
    show [b1 / 4 * 4 + (b1 % 4 * 16 + b2 / 16) / 16,
          (b1 % 4 * 16 + b2 / 16) % 16 * 16 + b2 % 16 * 4 / 4] = [b1, b2]
    congr 1
    · omega
    · congr 1
      omega
  | b1 :: b2 :: b3 :: rest => fun h => by
    have h1 : b1 < 256 := h b1 (by simp)
    have h2 : b2 < 256 := h b2 (by simp)
    have h3 : b3 < 256 := h b3 (by simp)
    have ih := base64Decode_encode rest (fun b hb => h b (by simp [hb]))
    have ih' : b64Regroup (((base64Encode rest).filter
        (fun c => decide (c ≠ '='))).map b64Val) = rest := ih
    have e1 := b64Char_ne_pad_of_lt (x := b1 / 4) (by omega)
    have e2 := b64Char_ne_pad_of_lt (x := b1 % 4 * 16 + b2 / 16) (by omega)
    have e3 := b64Char_ne_pad_of_lt (x := b2 % 16 * 4 + b3 / 64) (by omega)
    have e4 := b64Char_ne_pad_of_lt (x := b3 % 64) (by omega)
    show b64Regroup ((List.filter _
      (b64Char (b1 / 4) :: b64Char (b1 % 4 * 16 + b2 / 16) ::
       b64Char (b2 % 16 * 4 + b3 / 64) :: b64Char (b3 % 64) ::
       base64Encode rest)).map b64Val) = b1 :: b2 :: b3 :: rest
    rw [show List.filter (fun c => decide (c ≠ '='))
        (b64Char (b1 / 4) :: b64Char (b1 % 4 * 16 + b2 / 16) ::
         b64Char (b2 % 16 * 4 + b3 / 64) :: b64Char (b3 % 64) ::
         base64Encode rest)
      = b64Char (b1 / 4) :: b64Char (b1 % 4 * 16 + b2 / 16) ::
        b64Char (b2 % 16 * 4 + b3 / 64) :: b64Char (b3 % 64) ::
        (base64Encode rest).filter (fun c => decide (c ≠ '=')) by
        simp [List.filter_cons, e1, e2, e3, e4]]
    rw [List.map_cons, List.map_cons, List.map_cons, List.map_cons,
      b64Val_b64Char_of_lt (by omega), b64Val_b64Char_of_lt (by omega),
      b64Val_b64Char_of_lt (by omega), b64Val_b64Char_of_lt (by omega)]
    show (b1 / 4 * 4 + (b1 % 4 * 16 + b2 / 16) / 16) ::
      ((b1 % 4 * 16 + b2 / 16) % 16 * 16 + (b2 % 16 * 4 + b3 / 64) / 4) ::
      ((b2 % 16 * 4 + b3 / 64) % 4 * 64 + b3 % 64) ::
      b64Regroup (((base64Encode rest).filter
        (fun c => decide (c ≠ '='))).map b64Val) = b1 :: b2 :: b3 :: rest
    rw [ih']
    congr 1
    · omega
    congr 1
    · omega
    congr 1
    omega

theorem utf8DecodeAux_none_cons (b : Nat) (rest : List Nat) :
    utf8DecodeAux none (b :: rest)
      = (if b < 0x80 then
          (utf8DecodeAux none rest).map (fun cs => Char.ofNat b :: cs)
        else if b < 0xE0 then utf8DecodeAux (some (0, b - 0xC0)) rest
        else if b < 0xF0 then utf8DecodeAux (some (1, b - 0xE0)) rest
        else utf8DecodeAux (some (2, b - 0xF0)) rest) := rfl

theorem utf8DecodeAux_emit (acc b : Nat) (rest : List Nat) :
    utf8DecodeAux (some (0, acc)) (b :: rest)
      = (utf8DecodeAux none rest).map
          (fun cs => Char.ofNat (acc * 64 + (b - 0x80)) :: cs) := rfl

theorem utf8DecodeAux_cont (k acc b : Nat) (rest : List Nat) :
    utf8DecodeAux (some (k + 1, acc)) (b :: rest)
      = utf8DecodeAux (some (k, acc * 64 + (b - 0x80))) rest := rfl

theorem utf8Decode_append_encodeChar (c : Char) {bs : List Nat} {cs : List Char}
    (h : utf8Decode bs = some cs) :
    utf8Decode (utf8EncodeChar c ++ bs) = some (c :: cs) := by
  have hn := char_toNat_lt c
  rw [utf8Decode] at h ⊢
  by_cases h1 : c.toNat < 0x80
  · rw [show utf8EncodeChar c = [c.toNat] from by rw [utf8EncodeChar, if_pos h1]]
    show utf8DecodeAux none (c.toNat :: bs) = some (c :: cs)
    rw [utf8DecodeAux_none_cons, if_pos h1, h, Option.map_some', Char.ofNat_toNat]
  · by_cases h2 : c.toNat < 0x800
    · rw [show utf8EncodeChar c = [0xC0 + c.toNat / 64, 0x80 + c.toNat % 64] from by
        rw [utf8EncodeChar, if_neg h1, if_pos h2]]
      show utf8DecodeAux none ((0xC0 + c.toNat / 64) :: (0x80 + c.toNat % 64) :: bs)
        = some (c :: cs)
      rw [utf8DecodeAux_none_cons, if_neg (by omega), if_pos (by omega),
        utf8DecodeAux_emit, h, Option.map_some',
        show (0xC0 + c.toNat / 64 - 0xC0) * 64 + (0x80 + c.toNat % 64 - 0x80)
          = c.toNat from by omega, Char.ofNat_toNat]
    · by_cases h3 : c.toNat < 0x10000
      · rw [show utf8EncodeChar c = [0xE0 + c.toNat / 4096,
            0x80 + c.toNat / 64 % 64, 0x80 + c.toNat % 64] from by
          rw [utf8EncodeChar, if_neg h1, if_neg h2, if_pos h3]]
        show utf8DecodeAux none ((0xE0 + c.toNat / 4096) ::
          (0x80 + c.toNat / 64 % 64) :: (0x80 + c.toNat % 64) :: bs)
          = some (c :: cs)
        rw [utf8DecodeAux_none_cons, if_neg (by omega), if_neg (by omega),
          if_pos (by omega), utf8DecodeAux_cont, utf8DecodeAux_emit, h,
          Option.map_some',
          show ((0xE0 + c.toNat / 4096 - 0xE0) * 64 +
              (0x80 + c.toNat / 64 % 64 - 0x80)) * 64 +
              (0x80 + c.toNat % 64 - 0x80) = c.toNat from by omega,
          Char.ofNat_toNat]
      · rw [show utf8EncodeChar c = [0xF0 + c.toNat / 262144,
            0x80 + c.toNat / 4096 % 64, 0x80 + c.toNat / 64 % 64,
            0x80 + c.toNat % 64] from by
          rw [utf8EncodeChar, if_neg h1, if_neg h2, if_neg h3]]
        show utf8DecodeAux none ((0xF0 + c.toNat / 262144) ::
          (0x80 + c.toNat / 4096 % 64) :: (0x80 + c.toNat / 64 % 64) ::
          (0x80 + c.toNat % 64) :: bs) = some (c :: cs)
        rw [utf8DecodeAux_none_cons, if_neg (by omega), if_neg (by omega),
          if_neg (by omega), utf8DecodeAux_cont, utf8DecodeAux_cont,
          utf8DecodeAux_emit, h, Option.map_some',
          show (((0xF0 + c.toNat / 262144 - 0xF0) * 64 +
              (0x80 + c.toNat / 4096 % 64 - 0x80)) * 64 +
              (0x80 + c.toNat / 64 % 64 - 0x80)) * 64 +
              (0x80 + c.toNat % 64 - 0x80) = c.toNat from by omega,
          Char.ofNat_toNat]

theorem utf8Decode_utf8Encode (cs : List Char) :
    utf8Decode (utf8Encode cs) = some cs := by
  induction cs with
  | nil => rfl
  | cons c cs ih =>
    rw [show utf8Encode (c :: cs) = utf8EncodeChar c ++ utf8Encode cs from by
      rw [utf8Encode, utf8Encode, List.flatMap_cons]]
    exact utf8Decode_append_encodeChar c ih

theorem utf8Encode_lt (cs : List Char) : ∀ b ∈ utf8Encode cs, b < 256 := by
  intro b hb
  rw [utf8Encode] at hb
  obtain ⟨c, _, hc⟩ := List.mem_flatMap.mp hb
  exact utf8EncodeChar_lt b hc

/- ### C10: shape of the percent-encoded request path -/

theorem collapseRunsAux_head_true {p : Char → Bool} {r : Char} :
    ∀ (l : List Char) (c : Char),
      (collapseRunsAux p r true l).head? = some c → p c = false := by
  intro l
  induction l with
  | nil => intro c h; cases h
  | cons a t ih =>
    intro c h
    by_cases hp : p a
    · rw [show collapseRunsAux p r true (a :: t) = collapseRunsAux p r true t from by
        rw [collapseRunsAux, if_pos hp, if_pos rfl]] at h
      exact ih c h
    · rw [show collapseRunsAux p r true (a :: t)
          = a :: collapseRunsAux p r false t from by
        rw [collapseRunsAux, if_neg hp]] at h
      cases h
      simpa using hp

theorem chain'_collapseRunsAux {p : Char → Bool} {r : Char} :
    ∀ (inRun : Bool) (l : List Char),
      (collapseRunsAux p r inRun l).Chain'
        (fun a b => ¬(p a = true ∧ p b = true)) := by
  intro inRun l
  induction l generalizing inRun with
  | nil => exact List.chain'_nil
  | cons a t ih =>
    by_cases hp : p a
    · cases inRun with
      | true =>
        rw [show collapseRunsAux p r true (a :: t) = collapseRunsAux p r true t from by
          rw [collapseRunsAux, if_pos hp, if_pos rfl]]
        exact ih true
      | false =>
        rw [show collapseRunsAux p r false (a :: t)
            = r :: collapseRunsAux p r true t from by
          rw [collapseRunsAux, if_pos hp, if_neg (by simp)]]
        rw [List.chain'_cons']
        refine ⟨?_, ih true⟩
        intro y hy
        have := collapseRunsAux_head_true t y hy
        simp [this]
    · rw [show collapseRunsAux p r inRun (a :: t)
          = a :: collapseRunsAux p r false t from by
        rw [collapseRunsAux, if_neg hp]]
      rw [List.chain'_cons']
      refine ⟨?_, ih false⟩
      intro y _
      simp [hp]

/-- The raw path has no two consecutive slashes. -/
theorem rawPath_chain (pathPre fileNm : String) :
    (rawPath pathPre fileNm).data.Chain' (fun a b => ¬(a = '/' ∧ b = '/')) := by
  have hco := chain'_collapseRunsAux (p := slashChar) (r := '/') false
    (pathPre ++ fileNm).data
  have hchain : (collapseRuns slashChar '/' (pathPre ++ fileNm).data).Chain'
      (fun a b => ¬(a = '/' ∧ b = '/')) := by
    apply hco.imp
    intro a b hab ⟨ha, hb⟩
    exact hab ⟨by simp [slashChar, ha], by simp [slashChar, hb]⟩
  show (stripLeadSlash (collapseRuns slashChar '/' (pathPre ++ fileNm).data)).Chain' _
  cases hcol : collapseRuns slashChar '/' (pathPre ++ fileNm).data with
  | nil => exact List.chain'_nil
  | cons a t =>
    rw [hcol] at hchain
    by_cases ha : a = '/'
    · subst ha
      rw [show stripLeadSlash ('/' :: t) = t from rfl]
      exact hchain.tail
    · rw [show stripLeadSlash (a :: t) = a :: t from by
        cases a; rw [stripLeadSlash.eq_def]; split <;> simp_all]
      exact hchain

/-- The raw path does not start with a slash. -/
theorem rawPath_head (pathPre fileNm : String) :
    ∀ c, (rawPath pathPre fileNm).data.head? = some c → c ≠ '/' := by
  intro c
  have hco := chain'_collapseRunsAux (p := slashChar) (r := '/') false
    (pathPre ++ fileNm).data
  have hchain : (collapseRuns slashChar '/' (pathPre ++ fileNm).data).Chain'
      (fun a b => ¬(a = '/' ∧ b = '/')) := by
    apply hco.imp
    intro a b hab ⟨ha, hb⟩
    exact hab ⟨by simp [slashChar, ha], by simp [slashChar, hb]⟩
  show (stripLeadSlash (collapseRuns slashChar '/' (pathPre ++ fileNm).data)).head?
    = some c → c ≠ '/'
  cases hcol : collapseRuns slashChar '/' (pathPre ++ fileNm).data with
  | nil => intro h; cases h
  | cons a t =>
    rw [hcol] at hchain
    by_cases ha : a = '/'
    · subst ha
      rw [show stripLeadSlash ('/' :: t) = t from rfl]
      intro hc
      rw [List.chain'_cons'] at hchain
      have := hchain.1 c hc
      intro hslash
      subst hslash
      exact this ⟨rfl, rfl⟩
    · rw [show stripLeadSlash (a :: t) = a :: t from by
        cases a; rw [stripLeadSlash.eq_def]; split <;> simp_all]
      intro hc
      cases hc
      exact ha

/-- One character of the raw path, as it appears in the encoded path:
`'/'` separators survive, everything else goes through `encodeURIComponent`. -/
def encPathChar (c : Char) : List Char :=
  if c = '/' then ['/'] else encodeURIChar c

theorem splitSlash_ne_nil : ∀ l : List Char, splitSlash l ≠ [] := by
  intro l
  cases l with
  | nil => simp [splitSlash]
  | cons c t =>
    by_cases hc : c = '/'
    · rw [show splitSlash (c :: t) = [] :: splitSlash t from by
        rw [splitSlash.eq_def]; simp [hc]]
      simp
    · rw [show splitSlash (c :: t)
          = match splitSlash t with
            | [] => [[c]]
            | s :: rest => (c :: s) :: rest from by
        rw [splitSlash.eq_def]; simp [hc]]
      cases splitSlash t <;> simp

theorem joinSlash_append_head (x y : List Char) (L : List (List Char)) :
    joinSlash ((x ++ y) :: L) = x ++ joinSlash (y :: L) := by
  cases L with
  | nil => rfl
  | cons s rest =>
    show (x ++ y) ++ '/' :: joinSlash (s :: rest)
      = x ++ (y ++ '/' :: joinSlash (s :: rest))
    rw [List.append_assoc]

/-- Split, per-segment `encodeURIComponent`, and join amount to a per-character
transformation of the raw path. -/
theorem joinSlash_splitSlash_encode (l : List Char) :
    joinSlash ((splitSlash l).map encodeURIComponent) = l.flatMap encPathChar := by
  induction l with
  | nil => rfl
  | cons c t ih =>
    by_cases hc : c = '/'
    · subst hc
      rw [show splitSlash ('/' :: t) = [] :: splitSlash t from by
        rw [splitSlash.eq_def]; simp]
      rw [List.map_cons]
      obtain ⟨s, rest, hsr⟩ : ∃ s rest, splitSlash t = s :: rest := by
        cases hs : splitSlash t with
        | nil => exact absurd hs (splitSlash_ne_nil t)
        | cons s rest => exact ⟨s, rest, rfl⟩
      rw [hsr]
      rw [show joinSlash (encodeURIComponent [] :: (s :: rest).map encodeURIComponent)
          = '/' :: joinSlash ((s :: rest).map encodeURIComponent) from by
        rw [List.map_cons]; rfl]
      rw [← hsr, ih, List.flatMap_cons]
      simp [encPathChar]
    · rw [show splitSlash (c :: t)
          = match splitSlash t with
            | [] => [[c]]
            | s :: rest => (c :: s) :: rest from by
        rw [splitSlash.eq_def]; simp [hc]]
      obtain ⟨s, rest, hsr⟩ : ∃ s rest, splitSlash t = s :: rest := by
        cases hs : splitSlash t with
        | nil => exact absurd hs (splitSlash_ne_nil t)
        | cons s rest => exact ⟨s, rest, rfl⟩
      rw [hsr]
      show joinSlash (encodeURIComponent (c :: s) :: rest.map encodeURIComponent)
        = (c :: t).flatMap encPathChar
      rw [show encodeURIComponent (c :: s) = encodeURIChar c ++ encodeURIComponent s
        from by rw [encodeURIComponent, encodeURIComponent, List.flatMap_cons]]
      rw [joinSlash_append_head]
      rw [show joinSlash (encodeURIComponent s :: rest.map encodeURIComponent)
          = joinSlash ((splitSlash t).map encodeURIComponent) from by
        rw [hsr, List.map_cons]]
      rw [ih, List.flatMap_cons]
      rw [show encPathChar c = encodeURIChar c from by rw [encPathChar, if_neg hc]]

theorem hexDigits_getD_mem : ∀ k : Fin 16, hexDigits.getD k.val '0' ∈ hexDigits := by
  decide

theorem hexDigits_unreserved : ∀ c ∈ hexDigits, uriUnreserved c = true := by
  decide

theorem encodeURIChar_ne_nil (c : Char) : encodeURIChar c ≠ [] := by
  rw [encodeURIChar]
  split
  · simp
  · have hn := char_toNat_lt c
    rw [utf8EncodeChar]
    split
    · simp [percentByte]
    · split
      · simp [percentByte]
      · split
        · simp [percentByte]
        · simp [percentByte]

theorem mem_encodeURIChar {c' c : Char} (h : c' ∈ encodeURIChar c) :
    (c' = c ∧ uriUnreserved c = true) ∨ c' = '%' ∨ c' ∈ hexDigits := by
  rw [encodeURIChar] at h
  split at h
  · rw [List.mem_singleton] at h
    left
    exact ⟨h, by assumption⟩
  · right
    obtain ⟨b, hb, hcb⟩ := List.mem_flatMap.mp h
    have hb256 : b < 256 := utf8EncodeChar_lt b hb
    simp only [percentByte, List.mem_cons, List.not_mem_nil, or_false] at hcb
    rcases hcb with rfl | rfl | rfl
    · exact Or.inl rfl
    · right
      exact hexDigits_getD_mem ⟨b / 16, by omega⟩
    · right
      exact hexDigits_getD_mem ⟨b % 16, by omega⟩

theorem encodeURIChar_no_slash {c' c : Char} (h : c' ∈ encodeURIChar c) :
    c' ≠ '/' := by
  rcases mem_encodeURIChar h with ⟨rfl, hu⟩ | rfl | hmem
  · intro hc
    rw [hc] at hu
    exact absurd hu (by decide)
  · decide
  · intro hc
    rw [hc] at hmem
    exact absurd hmem (by decide)

theorem chain'_of_no_slash {xs : List Char} (h : ∀ a ∈ xs, a ≠ '/') :
    xs.Chain' (fun a b => ¬(a = '/' ∧ b = '/')) := by
  induction xs with
  | nil => exact List.chain'_nil
  | cons a t ih =>
    rw [List.chain'_cons']
    refine ⟨?_, ih (fun a ha => h a (List.mem_cons_of_mem _ ha))⟩
    intro y _ hy
    exact h a (List.mem_cons_self _ _) hy.1

theorem encPathChar_ne_nil (c : Char) : encPathChar c ≠ [] := by
  rw [encPathChar]
  split
  · simp
  · exact encodeURIChar_ne_nil c

theorem chain'_flatMap_encPathChar :
    ∀ (l : List Char), l.Chain' (fun a b => ¬(a = '/' ∧ b = '/')) →
      (l.flatMap encPathChar).Chain' (fun a b => ¬(a = '/' ∧ b = '/')) := by
  intro l
  induction l with
  | nil => intro _; exact List.chain'_nil
  | cons c t ih =>
    intro hch
    rw [List.chain'_cons'] at hch
    rw [List.flatMap_cons]
    apply List.Chain'.append
    · rw [encPathChar]
      split
      · simp
      · exact chain'_of_no_slash (fun a ha => encodeURIChar_no_slash ha)
    · exact ih hch.2
    · intro x hx y hy
      by_cases hc : c = '/'
      · subst hc
        cases t with
        | nil => simp [List.flatMap_nil] at hy
        | cons d t' =>
          have hd : d ≠ '/' := by
            intro hd
            exact hch.1 d (by simp) ⟨rfl, hd⟩
          rw [List.flatMap_cons, List.head?_append] at hy
          have hyd : y ∈ (encPathChar d).head? := by
            cases hh : (encPathChar d).head? with
            | none =>
              exact absurd (List.head?_eq_none_iff.mp hh) (encPathChar_ne_nil d)
            | some z =>
              rw [hh] at hy
              simp only [Option.or_some] at hy
              exact hy
          have : y ∈ encPathChar d := List.mem_of_mem_head? hyd
          rw [encPathChar, if_neg hd] at this
          intro hxy
          exact encodeURIChar_no_slash this hxy.2
      · rw [encPathChar, if_neg hc] at hx
        have := encodeURIChar_no_slash (List.mem_of_mem_getLast? hx)
        intro hxy
        exact this hxy.1

theorem head_flatMap_encPathChar (l : List Char)
    (h : ∀ c, l.head? = some c → c ≠ '/') :
    ∀ c', (l.flatMap encPathChar).head? = some c' → c' ≠ '/' := by
  cases l with
  | nil => intro c' hc'; cases hc'
  | cons c t =>
    intro c' hc'
    have hc : c ≠ '/' := h c rfl
    rw [List.flatMap_cons, List.head?_append] at hc'
    have hc'' : c' ∈ (encPathChar c).head? := by
      cases hh : (encPathChar c).head? with
      | none =>
        exact absurd (List.head?_eq_none_iff.mp hh) (encPathChar_ne_nil c)
      | some z =>
        rw [hh] at hc'
        simp only [Option.or_some] at hc'
        exact hc'
    have hmem : c' ∈ encPathChar c := List.mem_of_mem_head? hc''
    rw [encPathChar, if_neg hc] at hmem
    exact encodeURIChar_no_slash hmem

/-- C10 fails on the code: the claim's consequence does not hold for every
`fileName` — a trailing slash in the combined path yields an empty final
URL segment, and `encodeURIComponent` keeps `!` (an RFC 3986 sub-delim) raw:
for path prefix `"a/"` and file name `"!/"` the encoded path is `"a/!/"`,
whose segments contain the empty segment and whose characters contain a raw
`'!'`. -/
theorem C10_counterexample :
    encodedPath "a/" "!/" = "a/!/" ∧
    [] ∈ splitSlash (encodedPath "a/" "!/").data ∧
    '!' ∈ (encodedPath "a/" "!/").data := by
  refine ⟨?_, ?_, ?_⟩ <;> decide

/-- C10 (amended): the raw store path (path prefix ++ file name) has every
run of consecutive `'/'` collapsed to a single `'/'` and a leading `'/'`
removed — it neither starts with `'/'` nor contains `"//"` — and each
remaining segment is percent-encoded with `encodeURIComponent`, so the
request path never starts with `'/'`, never contains two adjacent slashes
(hence no empty segment except possibly a trailing one when the raw path
ends in `'/'`), and each of its characters is a `'/'` separator, a `'%'`
of an escape, a hex digit, or a character `encodeURIComponent` leaves raw
(letters, digits, `- _ . ! ~ * ' ( )`); gen-delims other than the
separators and non-ASCII characters never appear raw. -/
theorem C10_encoded_path_amended (pathPre fileNm : String) :
    (∀ c, (rawPath pathPre fileNm).data.head? = some c → c ≠ '/') ∧
    (rawPath pathPre fileNm).data.Chain' (fun a b => ¬(a = '/' ∧ b = '/')) ∧
    (∀ c, (encodedPath pathPre fileNm).data.head? = some c → c ≠ '/') ∧
    (encodedPath pathPre fileNm).data.Chain' (fun a b => ¬(a = '/' ∧ b = '/')) ∧
    (∀ c ∈ (encodedPath pathPre fileNm).data,
      c = '/' ∨ c = '%' ∨ uriUnreserved c = true) := by
  have hep : (encodedPath pathPre fileNm).data
      = (rawPath pathPre fileNm).data.flatMap encPathChar := by
    show joinSlash ((splitSlash (rawPath pathPre fileNm).data).map encodeURIComponent)
      = _
    exact joinSlash_splitSlash_encode _
  refine ⟨rawPath_head pathPre fileNm, rawPath_chain pathPre fileNm, ?_, ?_, ?_⟩
  · rw [hep]
    exact head_flatMap_encPathChar _ (rawPath_head pathPre fileNm)
  · rw [hep]
    exact chain'_flatMap_encPathChar _ (rawPath_chain pathPre fileNm)
  · rw [hep]
    intro c hc
    obtain ⟨a, _, hca⟩ := List.mem_flatMap.mp hc
    rw [encPathChar] at hca
    split at hca
    · rw [List.mem_singleton] at hca
      exact Or.inl hca
    · rcases mem_encodeURIChar hca with ⟨rfl, hu⟩ | rfl | hmem
      · exact Or.inr (Or.inr hu)
      · exact Or.inr (Or.inl rfl)
      · exact Or.inr (Or.inr (hexDigits_unreserved c hmem))

theorem C10_witness :
    ((∀ c, (rawPath "novels/my-novels/" "n/001_c.md").data.head? = some c →
      c ≠ '/') ∧
    (rawPath "novels/my-novels/" "n/001_c.md").data.Chain'
      (fun a b => ¬(a = '/' ∧ b = '/')) ∧
    (∀ c, (encodedPath "novels/my-novels/" "n/001_c.md").data.head? = some c →
      c ≠ '/') ∧
    (encodedPath "novels/my-novels/" "n/001_c.md").data.Chain'
      (fun a b => ¬(a = '/' ∧ b = '/')) ∧
    (∀ c ∈ (encodedPath "novels/my-novels/" "n/001_c.md").data,
      c = '/' ∨ c = '%' ∨ uriUnreserved c = true)) :=
  C10_encoded_path_amended "novels/my-novels/" "n/001_c.md"

/-- C9: the store-upload content encoding
`btoa(unescape(encodeURIComponent(content)))` is byte-safe and reversible
for arbitrary Unicode text: base64-decoding the transmitted value and
reversing the UTF-8 byte encoding yields the original string again. -/
theorem C9_content_encoding_reversible (content : String) :
    decodeBase64Content (base64Content content) = some content := by
  rw [decodeBase64Content, base64Content]
  show (utf8Decode (base64Decode (base64Encode (utf8Encode content.data)))).map
    String.mk = some content
  rw [base64Decode_encode _ (utf8Encode_lt content.data),
    utf8Decode_utf8Encode, Option.map_some']

end Novels
